import Mathlib

/-!
Verification development for the unsquashfs wrapper library.

The library spawns an external extraction process attached to a
pseudo-terminal, parses the byte stream the child writes for progress
percentages and diagnostic text, and supports cooperative cancellation
from another thread.

Everything below is a shallow embedding of the two source files:

* the output parser (function named handle in the source) is modelled on
  byte lists: each read chunk is UTF-8 validated, split on carriage
  return and line feed, and every line is classified as a progress
  marker or diagnostic text exactly as in the source;
* the supervisor (extract together with the process-control thread and
  cancel) is modelled as a labelled transition system whose atomic
  actions are the individual statements of the two threads, with the
  cancel caller and the spontaneous exit of the child as environment
  actions.

Bytes are plain naturals below 256; decoded code points are naturals.
-/

namespace UnsquashfsWrapper

/-- ASCII bytes of a Lean string literal (used only for ASCII text). -/
def asciiOf (s : String) : List Nat := s.data.map (fun c => c.toNat)

/-- White_Space code points, as recognised by the trim in the source
language standard library. -/
def isRustWs (c : Nat) : Bool :=
  decide (c = 0x09 ∨ c = 0x0A ∨ c = 0x0B ∨ c = 0x0C ∨ c = 0x0D ∨ c = 0x20 ∨
    c = 0x85 ∨ c = 0xA0 ∨ c = 0x1680 ∨ (0x2000 ≤ c ∧ c ≤ 0x200A) ∨
    c = 0x2028 ∨ c = 0x2029 ∨ c = 0x202F ∨ c = 0x205F ∨ c = 0x3000)

/-- Trim leading and trailing white space from a code-point list. -/
def rustTrim (cs : List Nat) : List Nat :=
  ((cs.dropWhile isRustWs).reverse.dropWhile isRustWs).reverse

/-- Base-10 signed integer parse of a code-point list, mirroring the
standard i32 parse: optional sign, then one or more ASCII digits, and
the value must fit in 32 bits. -/
def parseI32 (cs : List Nat) : Option Int :=
  let core : List Nat → Option Nat := fun ds =>
    if ds.isEmpty then none
    else if ds.all (fun c => decide (48 ≤ c ∧ c ≤ 57)) then
      some (ds.foldl (fun a c => a * 10 + (c - 48)) 0)
    else none
  match cs with
  | 43 :: ds => (core ds).bind (fun n => if n ≤ 0x7FFFFFFF then some (n : Int) else none)
  | 45 :: ds => (core ds).bind (fun n => if n ≤ 0x80000000 then some (-(n : Int)) else none)
  | ds => (core ds).bind (fun n => if n ≤ 0x7FFFFFFF then some (n : Int) else none)

/-- Strict UTF-8 decoder: rejects overlong forms, surrogates and code
points above 0x10FFFF, exactly like the validation the source performs
on every read chunk. Returns the decoded code points. -/
def utf8Decode? : List Nat → Option (List Nat)
  | [] => some []
  | b :: r =>
    if b < 0x80 then (utf8Decode? r).map (fun t => b :: t)
    else if b < 0xC2 then none
    else if b ≤ 0xDF then
      match r with
      | b1 :: r1 =>
        if 0x80 ≤ b1 ∧ b1 ≤ 0xBF then
          (utf8Decode? r1).map (fun t => ((b - 0xC0) * 0x40 + (b1 - 0x80)) :: t)
        else none
      | [] => none
    else if b ≤ 0xEF then
      match r with
      | b1 :: b2 :: r1 =>
        if (if b = 0xE0 then 0xA0 ≤ b1 ∧ b1 ≤ 0xBF
            else if b = 0xED then 0x80 ≤ b1 ∧ b1 ≤ 0x9F
            else 0x80 ≤ b1 ∧ b1 ≤ 0xBF) ∧ 0x80 ≤ b2 ∧ b2 ≤ 0xBF then
          (utf8Decode? r1).map
            (fun t => ((b - 0xE0) * 0x1000 + (b1 - 0x80) * 0x40 + (b2 - 0x80)) :: t)
        else none
      | _ => none
    else if b ≤ 0xF4 then
      match r with
      | b1 :: b2 :: b3 :: r1 =>
        if (if b = 0xF0 then 0x90 ≤ b1 ∧ b1 ≤ 0xBF
            else if b = 0xF4 then 0x80 ≤ b1 ∧ b1 ≤ 0x8F
            else 0x80 ≤ b1 ∧ b1 ≤ 0xBF) ∧ 0x80 ≤ b2 ∧ b2 ≤ 0xBF ∧ 0x80 ≤ b3 ∧ b3 ≤ 0xBF then
          (utf8Decode? r1).map
            (fun t => ((b - 0xF0) * 0x40000 + (b1 - 0x80) * 0x1000 +
              (b2 - 0x80) * 0x40 + (b3 - 0x80)) :: t)
        else none
      | _ => none
    else none

/-- Split a byte list on carriage return and line feed, keeping empty
segments, as the per-chunk split in the source does. -/
def splitLines : List Nat → List (List Nat)
  | [] => [[]]
  | b :: r =>
    if b = 13 ∨ b = 10 then [] :: splitLines r
    else
      match splitLines r with
      | l :: ls => (b :: l) :: ls
      | [] => [[b]]

/-- Byte index i is a character boundary of a valid UTF-8 byte list:
start, end, or a byte that is not a continuation byte. -/
def isCharBoundary (l : List Nat) (i : Nat) : Bool :=
  decide (i = 0) || decide (i = l.length) ||
    (match l.get? i with
     | some b => decide (b < 0x80 ∨ 0xC0 ≤ b)
     | none => false)

/-- Classification of one logical line as a progress marker: first byte
is an opening bracket, last byte is a percent sign, and the byte length
is at least 4. -/
def progressShape (l : List Nat) : Bool :=
  l.head? == some 91 && l.getLast? == some 37 && decide (4 ≤ l.length)

/-- Percentage extraction from a progress-shaped line: the three bytes
immediately preceding the trailing percent sign are sliced (the slice
panics, modelled as the outer none, when the start offset is not a
character boundary), decoded, trimmed and parsed in base 10. -/
def sliceParse (l : List Nat) : Option (Option Int) :=
  let n := l.length
  if isCharBoundary l (n - 4) && isCharBoundary l (n - 1) then
    some (match utf8Decode? ((l.drop (n - 4)).take 3) with
          | some cps => parseI32 (rustTrim cps)
          | none => none)
  else none

/-- Observable state of the output parser: the last emitted progress
value, the record of callback invocations in order, and the diagnostic
transcript bytes. -/
structure PState where
  last : Int
  emits : List Int
  output : List Nat
deriving DecidableEq

/-- Parser state at the start of handle: last progress 0, nothing
emitted, empty transcript. -/
def initP : PState := ⟨0, [], []⟩

/-- One logical line of the parser loop body. The outer none models the
byte-slice panic; otherwise a progress value is emitted when it differs
from the last emitted value, progress-shaped lines whose parse fails
are discarded, and any other non-empty line is appended to the
transcript with a trailing line feed. -/
def processLine (st : PState) (l : List Nat) : Option PState :=
  if progressShape l then
    match sliceParse l with
    | none => none
    | some none => some st
    | some (some v) =>
      if st.last = v then some st
      else some { st with last := v, emits := st.emits ++ [v] }
  else if l.length ≠ 0 then
    some { st with output := st.output ++ l ++ [10] }
  else some st

/-- Fold of processLine over the lines of one chunk. -/
def processLines (st : PState) : List (List Nat) → Option PState
  | [] => some st
  | l :: ls =>
    match processLine st l with
    | some st1 => processLines st1 ls
    | none => none

/-- One read chunk: a chunk whose bytes are not valid UTF-8 is skipped
whole; otherwise it is split into lines and each line is handled. -/
def processChunk (st : PState) (c : List Nat) : Option PState :=
  match utf8Decode? c with
  | none => some st
  | some _ => processLines st (splitLines c)

/-- The read loop of handle over a list of chunks. -/
def processChunksFrom (st : PState) : List (List Nat) → Option PState
  | [] => some st
  | c :: cs =>
    match processChunk st c with
    | some st1 => processChunksFrom st1 cs
    | none => none

/-- The whole output parser for a stream delivered as the given chunks,
from the initial state; end of stream returns the accumulated state. -/
def processChunks (cs : List (List Nat)) : Option PState :=
  processChunksFrom initP cs

/-! Claim-language definitions about the parser, for comparison with
the behaviour of the embedded code. -/

/-- The logical lines the parser observes on a chunk list: valid chunks
contribute their line splits, invalid chunks contribute nothing. -/
def linesOf (cs : List (List Nat)) : List (List Nat) :=
  (cs.map (fun c => if (utf8Decode? c).isSome then splitLines c else [])).flatten

/-- The parsed progress value of a line, when the line is
progress-shaped and its slice parses. -/
def lineValue? (l : List Nat) : Option Int :=
  if progressShape l then (sliceParse l).bind id else none

/-- The sequence of parsed progress values of a line list. -/
def progressValues (ls : List (List Nat)) : List Int :=
  ls.filterMap lineValue?

/-- Transcript stated from the claim: the concatenation of all
non-progress, non-empty lines, each followed by one line feed. -/
def transcriptSpec (ls : List (List Nat)) : List Nat :=
  ((ls.filter (fun l => !progressShape l && decide (l.length ≠ 0))).map
    (fun l => l ++ [10])).flatten

/-- Last element of a list, with a default. -/
def lastD (d : Int) : List Int → Int
  | [] => d
  | v :: vs => lastD v vs

/-- Values emitted when each value differing from the running last
value (seeded with the given one) is kept. -/
def collapseFrom (a : Int) : List Int → List Int
  | [] => []
  | v :: vs => if v = a then collapseFrom a vs else v :: collapseFrom v vs

/-- Collapse of maximal runs of consecutive equal values, stated from
the claim: a value is kept exactly when it differs from its
predecessor. -/
def collapseRuns : List Int → List Int
  | [] => []
  | [v] => [v]
  | v :: w :: r =>
    if v = w then collapseRuns (w :: r) else v :: collapseRuns (w :: r)

/-! The supervisor: shared state, cancel, and the process-control
thread, modelled as a labelled transition system. -/

/-- Shared status of one supervisor instance. -/
inductive Status
  | Pending
  | Working
deriving DecidableEq

/-- Outcome of a thread or of extract: success, or an error carrying a
message. -/
inductive Res
  | ok
  | fail (msg : List Nat)
deriving DecidableEq

/-- Message of the error cancel returns when no extraction is in
flight. -/
def notRunningMsg : List Nat := asciiOf "Unsquashfs is not start."

/-- Message of the error the process-control thread returns for a
non-zero exit; the code defaults to 1 when the child was killed by a
signal. -/
def failMsg (w : Option Int) : List Nat :=
  asciiOf "archive extraction failed with status: " ++ asciiOf (toString (w.getD 1))

/-- Message of the error the standard library returns when kill is
called on an already reaped child. -/
def killErrMsg : List Nat := asciiOf "invalid argument: cannot kill an exited process"

/-- Result of the process-control thread on observing child exit status
w (none means killed by a signal): success exactly on exit code 0. -/
def exitRes (w : Option Int) : Res :=
  if w = some 0 then Res.ok else Res.fail (failMsg w)

/-- Merge performed by extract after the join: an error from the
process-control thread is wrapped together with the transcript. -/
def mergeRes (output : List Nat) : Res → Res
  | Res.ok => Res.ok
  | Res.fail e => Res.fail (asciiOf "Output: " ++ output ++ asciiOf ", " ++ e)

/-- The cancel operation on the shared state it touches: reading
Pending fails with no effect on the flag; reading Working stores true
into the flag and succeeds. Returns the result and the new flag. -/
def cancelFn (st : Status) (flag : Bool) : Res × Bool :=
  match st with
  | Status.Pending => (Res.fail notRunningMsg, flag)
  | Status.Working => (Res.ok, true)

/-- Program counter of the process-control thread. Names follow the
statements of the loop body: tryWait, the cancel-flag check, the kill
path (kill, clear flag, write Pending, return Ok), and the exit path
(write Pending, return the exit result). -/
inductive PPc
  | notStarted
  | loopStart
  | checkedWait
  | killC
  | clearK
  | pendK
  | retK
  | pendE
  | retE
  | done
deriving DecidableEq

/-- Global state of one extract call: the shared fields (status, cancel
flag), the child (spawned, alive, exit status once exited), the main
thread position, the process-control thread position with its local
try_wait snapshot and final result, and two history fields (killed: the
kill path ran; workingWrit: the Working write happened). -/
structure Sys where
  status : Status
  flag : Bool
  spawned : Bool
  alive : Bool
  exitCode : Option (Option Int)
  mainPc : Nat
  ppc : PPc
  waitv : Option (Option (Option Int))
  killed : Bool
  workingWrit : Bool
  ret : Option Res
deriving DecidableEq

/-- State at the start of an extract call on a fresh instance. -/
def init : Sys :=
  ⟨Status.Pending, false, false, false, none, 0, PPc.notStarted, none, false, false, none⟩

/-- Atomic actions: the three ordered main-thread steps before the
parser runs, the spontaneous exit of the child, a cancel call from
another thread, and the statements of the process-control loop. -/
inductive Act
  | spawnChild
  | setWorking
  | startPoller
  | childExit (c : Option Int)
  | cancelCall
  | tryWait
  | checkCancel
  | killChild
  | clearFlag
  | writePendingK
  | retKill
  | writePendingE
  | retExit

/-- One atomic step; none when the action is not enabled. -/
def step : Act → Sys → Option Sys
  | Act.spawnChild, s =>
    if s.mainPc = 0 then some { s with spawned := true, alive := true, mainPc := 1 } else none
  | Act.setWorking, s =>
    if s.mainPc = 1 then
      some { s with status := Status.Working, workingWrit := true, mainPc := 2 }
    else none
  | Act.startPoller, s =>
    if s.mainPc = 2 ∧ s.ppc = PPc.notStarted then
      some { s with ppc := PPc.loopStart, mainPc := 3 }
    else none
  | Act.childExit c, s =>
    if s.alive then some { s with alive := false, exitCode := some c } else none
  | Act.cancelCall, s =>
    some { s with flag := (cancelFn s.status s.flag).2 }
  | Act.tryWait, s =>
    if s.ppc = PPc.loopStart then
      some { s with waitv := some s.exitCode, ppc := PPc.checkedWait }
    else none
  | Act.checkCancel, s =>
    if s.ppc = PPc.checkedWait then
      some (if s.flag then { s with ppc := PPc.killC }
            else
              match s.waitv with
              | some (some _) => { s with ppc := PPc.pendE }
              | _ => { s with ppc := PPc.loopStart, waitv := none })
    else none
  | Act.killChild, s =>
    if s.ppc = PPc.killC then
      some (match s.waitv with
            | some (some _) => { s with ret := some (Res.fail killErrMsg), ppc := PPc.done }
            | _ => { s with alive := false, killed := true, ppc := PPc.clearK })
    else none
  | Act.clearFlag, s =>
    if s.ppc = PPc.clearK then some { s with flag := false, ppc := PPc.pendK } else none
  | Act.writePendingK, s =>
    if s.ppc = PPc.pendK then some { s with status := Status.Pending, ppc := PPc.retK } else none
  | Act.retKill, s =>
    if s.ppc = PPc.retK then some { s with ret := some Res.ok, ppc := PPc.done } else none
  | Act.writePendingE, s =>
    if s.ppc = PPc.pendE then some { s with status := Status.Pending, ppc := PPc.retE } else none
  | Act.retExit, s =>
    if s.ppc = PPc.retE then
      some { s with
        ret := some (match s.waitv with
                     | some (some w) => exitRes w
                     | _ => Res.ok),
        ppc := PPc.done }
    else none

/-- Run of a list of atomic actions; none when some action was not
enabled. -/
def run (s : Sys) : List Act → Option Sys
  | [] => some s
  | a :: tr =>
    match step a s with
    | some s1 => run s1 tr
    | none => none

/-- The result extract reports for a stream delivered as chunks and a
process-control outcome r, given that the parser returned normally:
the transcript is merged into an error from the join. -/
def extractRes (cs : List (List Nat)) (r : Res) : Option Res :=
  (processChunks cs).map (fun p => mergeRes p.output r)

/-- The single-quote escaping extract applies to both canonicalised
path strings before they are handed to the child as arguments: every
quote byte becomes the five-byte sequence quote, double quote, quote,
double quote, quote. -/
def replaceQuote : List Nat → List Nat
  | [] => []
  | b :: r =>
    if b = 39 then [39, 34, 39, 34, 39] ++ replaceQuote r
    else b :: replaceQuote r

/-! Concrete inputs used by counterexamples and witnesses. Byte lists
are spelled out; the comment next to each gives its ASCII reading. -/

/-- Chunk bytes of the single line with a zero percentage followed by a
line feed (open bracket, two spaces, digit zero, percent, line feed). -/
def zeroChunk : List Nat := [91, 32, 32, 48, 37, 10]

/-- Line bytes: open bracket, space, digits four and two, percent. -/
def line42 : List Nat := [91, 32, 52, 50, 37]

/-- Chunk bytes: the line42 line plus a line feed. -/
def chunk42 : List Nat := [91, 32, 52, 50, 37, 10]

/-- First three bytes of chunk42. -/
def chunk42a : List Nat := [91, 32, 52]

/-- Remaining bytes of chunk42. -/
def chunk42b : List Nat := [50, 37, 10]

/-- Line bytes: open bracket, letters a b c, percent, close bracket. -/
def lineAbcBr : List Nat := [91, 97, 98, 99, 37, 93]

/-- Line bytes: open bracket, letters a b c, percent. -/
def lineAbc : List Nat := [91, 97, 98, 99, 37]

/-- Stream of one chunk: the letters e r r, a line feed, then the
line42 line and a line feed. -/
def errStream : List (List Nat) := [[101, 114, 114, 10, 91, 32, 52, 50, 37, 10]]

/-- Interleaving in which the child exits cleanly, the process-control
thread observes the exit and passes its cancel-flag check, and only
then a cancel call lands while Status still reads Working; the thread
then resets Status and returns. -/
def raceTrace : List Act :=
  [Act.spawnChild, Act.setWorking, Act.startPoller, Act.childExit (some 0),
   Act.tryWait, Act.checkCancel, Act.cancelCall, Act.writePendingE, Act.retExit]

/-- Interleaving in which cancel lands first and the process-control
thread takes the whole kill path. -/
def killTrace : List Act :=
  [Act.spawnChild, Act.setWorking, Act.startPoller, Act.cancelCall,
   Act.tryWait, Act.checkCancel, Act.killChild, Act.clearFlag,
   Act.writePendingK, Act.retKill]

/-- Final state of killTrace. -/
def killFinal : Sys :=
  ⟨Status.Pending, false, true, false, none, 3, PPc.done, some none, true, true, some Res.ok⟩

/-- State after the three ordered main-thread steps of extract. -/
def startedSys : Sys :=
  ⟨Status.Working, false, true, true, none, 3, PPc.loopStart, none, false, true, none⟩

/-! Characterisation lemmas for the output parser. -/

theorem collapseRuns_cons (vs : List Int) : ∀ a : Int,
    collapseRuns (a :: vs) = a :: collapseFrom a vs := by
  induction vs with
  | nil => intro a; simp [collapseRuns, collapseFrom]
  | cons w r ih =>
    intro a
    by_cases hw : a = w
    · subst hw
      simp [collapseRuns, collapseFrom, ih]
    · have hw' : ¬ w = a := fun h => hw h.symm
      simp [collapseRuns, collapseFrom, ih, hw, hw']

theorem lastD_append (A : List Int) : ∀ (B : List Int) (d : Int),
    lastD d (A ++ B) = lastD (lastD d A) B := by
  induction A with
  | nil => intro B d; simp [lastD]
  | cons a A ih =>
    intro B d
    rw [List.cons_append]
    show lastD a (A ++ B) = lastD (lastD a A) B
    exact ih B a

theorem collapseFrom_append (A : List Int) : ∀ (B : List Int) (a : Int),
    collapseFrom a (A ++ B) = collapseFrom a A ++ collapseFrom (lastD a A) B := by
  induction A with
  | nil => intro B a; simp [collapseFrom, lastD]
  | cons v A ih =>
    intro B a
    by_cases hv : v = a
    · subst hv
      simp [collapseFrom, ih, lastD]
    · simp [collapseFrom, ih, lastD, hv]

theorem progressValues_append (A B : List (List Nat)) :
    progressValues (A ++ B) = progressValues A ++ progressValues B := by
  simp [progressValues, List.filterMap_append]

theorem transcriptSpec_append (A B : List (List Nat)) :
    transcriptSpec (A ++ B) = transcriptSpec A ++ transcriptSpec B := by
  simp [transcriptSpec, List.filter_append]

/-- What one pass of the line loop does to the parser state, stated
with the claim-side functions: the last value becomes the last parsed
value, the emitted values extend by the collapse seeded with the
current last value, and the transcript extends by the non-progress,
non-empty lines. -/
theorem processLines_spec (ls : List (List Nat)) : ∀ st st' : PState,
    processLines st ls = some st' →
    st'.last = lastD st.last (progressValues ls) ∧
    st'.emits = st.emits ++ collapseFrom st.last (progressValues ls) ∧
    st'.output = st.output ++ transcriptSpec ls := by
  induction ls with
  | nil =>
    intro st st' h
    simp only [processLines, Option.some.injEq] at h
    subst h
    simp [progressValues, transcriptSpec, lastD, collapseFrom]
  | cons l ls ih =>
    intro st st' h
    simp only [processLines] at h
    rcases hpl : processLine st l with _ | st1 <;> rw [hpl] at h
    · cases h
    · obtain ⟨ih1, ih2, ih3⟩ := ih st1 st' h
      by_cases hs : progressShape l
      · simp only [processLine, if_pos hs] at hpl
        rcases hsp : sliceParse l with _ | w <;> rw [hsp] at hpl
        · cases hpl
        · rcases w with _ | v
          · cases hpl
            have hlv : lineValue? l = none := by
              simp [lineValue?, hs, hsp]
            refine ⟨?_, ?_, ?_⟩ <;>
              simp [progressValues, List.filterMap_cons, hlv, transcriptSpec, hs, ih1, ih2, ih3]
          · have hlv : lineValue? l = some v := by
              simp [lineValue?, hs, hsp]
            have hpl2 : (if st.last = v then some st
                else some { st with last := v, emits := st.emits ++ [v] }) = some st1 := hpl
            by_cases hv : st.last = v
            · rw [if_pos hv] at hpl2
              cases hpl2
              refine ⟨?_, ?_, ?_⟩ <;>
                simp [progressValues, List.filterMap_cons, hlv, transcriptSpec, hs,
                  ih1, ih2, ih3, lastD, collapseFrom, hv]
            · rw [if_neg hv] at hpl2
              cases hpl2
              have hv' : ¬ v = st.last := fun hh => hv hh.symm
              refine ⟨?_, ?_, ?_⟩
              · simp only [ih1, progressValues, List.filterMap_cons, hlv, lastD]
              · simp only [ih2, progressValues, List.filterMap_cons, hlv, collapseFrom,
                  if_neg hv']
                simp
              · simp only [ih3, transcriptSpec, List.filter_cons]
                simp [hs]
      · have hlv : lineValue? l = none := by simp [lineValue?, hs]
        by_cases hn : l.length ≠ 0
        · simp only [processLine, if_neg hs, if_pos hn] at hpl
          cases hpl
          refine ⟨?_, ?_, ?_⟩
          · simp only [ih1, progressValues, List.filterMap_cons, hlv]
          · simp only [ih2, progressValues, List.filterMap_cons, hlv]
          · simp only [ih3, transcriptSpec, List.filter_cons]
            have : (!progressShape l && decide (l.length ≠ 0)) = true := by
              simp [hs, hn]
            simp only [this, if_pos, List.map_cons, List.flatten_cons]
            simp
        · simp only [processLine, if_neg hs, if_neg hn] at hpl
          cases hpl
          refine ⟨?_, ?_, ?_⟩
          · simp only [ih1, progressValues, List.filterMap_cons, hlv]
          · simp only [ih2, progressValues, List.filterMap_cons, hlv]
          · simp only [ih3, transcriptSpec, List.filter_cons]
            have : (!progressShape l && decide (l.length ≠ 0)) = false := by
              simp [hs, hn]
            simp only [this]
            simp

/-- The lines a chunk list contributes, unfolded one chunk. -/
theorem linesOf_cons (c : List Nat) (cs : List (List Nat)) :
    linesOf (c :: cs) =
      (if (utf8Decode? c).isSome then splitLines c else []) ++ linesOf cs := by
  simp [linesOf]

/-- What the chunk loop does to the parser state, stated with the
claim-side functions over the observed logical lines. -/
theorem processChunksFrom_spec (cs : List (List Nat)) : ∀ st st' : PState,
    processChunksFrom st cs = some st' →
    st'.last = lastD st.last (progressValues (linesOf cs)) ∧
    st'.emits = st.emits ++ collapseFrom st.last (progressValues (linesOf cs)) ∧
    st'.output = st.output ++ transcriptSpec (linesOf cs) := by
  induction cs with
  | nil =>
    intro st st' h
    simp only [processChunksFrom, Option.some.injEq] at h
    subst h
    simp [linesOf, progressValues, transcriptSpec, lastD, collapseFrom]
  | cons c cs ih =>
    intro st st' h
    simp only [processChunksFrom] at h
    rcases hpc : processChunk st c with _ | st1 <;> rw [hpc] at h
    · cases h
    · obtain ⟨ih1, ih2, ih3⟩ := ih st1 st' h
      rcases hdec : utf8Decode? c with _ | cps
      · simp only [processChunk, hdec] at hpc
        cases hpc
        rw [linesOf_cons, hdec]
        simpa using ⟨ih1, ih2, ih3⟩
      · simp only [processChunk, hdec] at hpc
        obtain ⟨l1, l2, l3⟩ := processLines_spec (splitLines c) st st1 hpc
        have hline : linesOf (c :: cs) = splitLines c ++ linesOf cs := by
          rw [linesOf_cons, hdec]; simp
        rw [hline]
        refine ⟨?_, ?_, ?_⟩
        · rw [ih1, l1, progressValues_append, lastD_append]
        · rw [ih2, l2, l1, progressValues_append, collapseFrom_append,
            List.append_assoc]
        · rw [ih3, l3, transcriptSpec_append, List.append_assoc]

/-- Full-run form of the chunk-loop characterisation. -/
theorem processChunks_spec (cs : List (List Nat)) (ps : PState)
    (h : processChunks cs = some ps) :
    ps.emits = collapseFrom 0 (progressValues (linesOf cs)) ∧
    ps.output = transcriptSpec (linesOf cs) := by
  obtain ⟨h1, h2, h3⟩ := processChunksFrom_spec cs initP ps h
  constructor
  · simpa [initP] using h2
  · simpa [initP] using h3

/-! Invariants of the supervisor transition system. -/

/-- Inductive invariant: the spawn, Working write and poller start are
ordered; Working implies a spawned child; a result exists only at the
end of the poller; and the kill path, once entered, ends with the Ok
result. -/
def Inv (s : Sys) : Prop :=
  (s.mainPc ≠ 0 → s.spawned = true) ∧
  (s.mainPc = 2 ∨ s.mainPc = 3 → s.workingWrit = true) ∧
  (s.status = Status.Working → s.spawned = true) ∧
  (s.ppc ≠ PPc.notStarted → s.workingWrit = true ∧ s.mainPc = 3) ∧
  (s.ppc ≠ PPc.done → s.ret = none) ∧
  (s.killed = true →
    ((s.ppc = PPc.clearK ∨ s.ppc = PPc.pendK ∨ s.ppc = PPc.retK) ∧ s.ret = none) ∨
    (s.ppc = PPc.done ∧ s.ret = some Res.ok))

theorem inv_init : Inv init := by
  refine ⟨?_, ?_, ?_, ?_, ?_, ?_⟩ <;> simp [init]

theorem inv_step (a : Act) (s s' : Sys) (hI : Inv s) (h : step a s = some s') :
    Inv s' := by
  obtain ⟨h1, h2, h3, h4, h5, h6⟩ := hI
  cases a <;> simp only [step] at h
  case spawnChild =>
    split at h
    · cases h
      refine ⟨?_, ?_, ?_, ?_, ?_, ?_⟩ <;> simp_all
    · cases h
  case setWorking =>
    split at h
    · cases h
      refine ⟨?_, ?_, ?_, ?_, ?_, ?_⟩ <;> simp_all
    · cases h
  case startPoller =>
    split at h
    · cases h
      refine ⟨?_, ?_, ?_, ?_, ?_, ?_⟩ <;> simp_all
    · cases h
  case childExit =>
    split at h
    · cases h
      refine ⟨?_, ?_, ?_, ?_, ?_, ?_⟩ <;> simp_all
    · cases h
  case cancelCall =>
    cases h
    refine ⟨?_, ?_, ?_, ?_, ?_, ?_⟩ <;> simp_all
  case tryWait =>
    split at h
    · cases h
      refine ⟨?_, ?_, ?_, ?_, ?_, ?_⟩ <;> simp_all
    · cases h
  case checkCancel =>
    split at h
    · next hpcEq =>
      cases h
      by_cases hf : s.flag
      · refine ⟨?_, ?_, ?_, ?_, ?_, ?_⟩ <;> simp_all
      · rcases s.waitv with _ | (_ | w) <;>
          refine ⟨?_, ?_, ?_, ?_, ?_, ?_⟩ <;> simp_all
    · cases h
  case killChild =>
    split at h
    · next hpcEq =>
      cases h
      rcases s.waitv with _ | (_ | w) <;>
        refine ⟨?_, ?_, ?_, ?_, ?_, ?_⟩ <;> simp_all
    · cases h
  case clearFlag =>
    split at h
    · cases h
      refine ⟨?_, ?_, ?_, ?_, ?_, ?_⟩ <;> simp_all
    · cases h
  case writePendingK =>
    split at h
    · cases h
      refine ⟨?_, ?_, ?_, ?_, ?_, ?_⟩ <;> simp_all
    · cases h
  case retKill =>
    split at h
    · cases h
      refine ⟨?_, ?_, ?_, ?_, ?_, ?_⟩ <;> simp_all
    · cases h
  case writePendingE =>
    split at h
    · cases h
      refine ⟨?_, ?_, ?_, ?_, ?_, ?_⟩ <;> simp_all
    · cases h
  case retExit =>
    split at h
    · cases h
      refine ⟨?_, ?_, ?_, ?_, ?_, ?_⟩ <;> simp_all
    · cases h

theorem inv_run (tr : List Act) : ∀ s s' : Sys, Inv s → run s tr = some s' → Inv s' := by
  induction tr with
  | nil =>
    intro s s' hI h
    simp only [run, Option.some.injEq] at h
    subst h
    exact hI
  | cons a tr ih =>
    intro s s' hI h
    simp only [run] at h
    rcases hst : step a s with _ | s1 <;> rw [hst] at h
    · cases h
    · exact ih s1 s' (inv_step a s s1 hI hst) h

/-- Every state reachable from the start of an extract call satisfies
the invariant. -/
theorem inv_reachable (tr : List Act) (s : Sys) (h : run init tr = some s) : Inv s :=
  inv_run tr init s inv_init h

/-- Length of the quote-escaped argument: four extra bytes per quote. -/
theorem replaceQuote_length (p : List Nat) :
    (replaceQuote p).length = p.length + 4 * p.count 39 := by
  induction p with
  | nil => simp [replaceQuote]
  | cons b r ih =>
    by_cases hb : b = 39
    · subst hb
      simp [replaceQuote, List.count_cons, ih]
      omega
    · have hb' : ¬ (39 = b) := fun h => hb h.symm
      simp only [replaceQuote, if_neg hb, List.length_cons, ih, List.count_cons]
      simp only [beq_iff_eq, if_neg hb, if_neg hb', ite_eq_right_iff]
      omega

/-! The claims. -/

/-- Claim C1, counterexample: a stream whose only progress line parses
to the value 0 produces no callback at all, while the collapse of the
parsed-value sequence is the one-element sequence 0, because the parser
seeds its last-emitted value with 0 rather than with no value. -/
theorem claimC1_counterexample :
    (processChunks [zeroChunk]).map (fun p => p.emits) = some [] ∧
    collapseRuns (progressValues (linesOf [zeroChunk])) = [0] ∧
    ([] : List Int) ≠ [0] := by
  refine ⟨by decide, by decide, by decide⟩

/-- Claim C1 as amended: during one extract call the callback sequence
is the collapse of maximal runs of consecutive equal values of the
parsed-value sequence prefixed with the initial last-emitted value 0,
with that leading 0 dropped; equivalently, the callback fires exactly
when a parsed value differs from the last emitted value, initially
0. -/
theorem claimC1_collapse (cs : List (List Nat)) (ps : PState)
    (h : processChunks cs = some ps) :
    ps.emits = (collapseRuns (0 :: progressValues (linesOf cs))).drop 1 := by
  rw [collapseRuns_cons]
  simpa using (processChunks_spec cs ps h).1

/-- Witness for claim C1 at a concrete stream: a zero line then a line
with value 42 emit exactly 42. -/
theorem claimC1_witness :
    processChunks [zeroChunk, chunk42] = some ⟨42, [42], []⟩ ∧
    (⟨42, [42], []⟩ : PState).emits =
      (collapseRuns (0 :: progressValues (linesOf [zeroChunk, chunk42]))).drop 1 :=
  ⟨by decide, claimC1_collapse [zeroChunk, chunk42] ⟨42, [42], []⟩ (by decide)⟩

/-- Claim C2 is violated by the code: the same bytes delivered as one
chunk or split in two chunks in the middle of a progress line give
different callback sequences and different transcripts, because each
chunk is split into lines on its own with no carry of a partial line
across the chunk boundary. -/
theorem claimC2_chunking :
    chunk42a ++ chunk42b = chunk42 ∧
    (processChunks [chunk42]).map (fun p => (p.emits, p.output)) = some ([42], []) ∧
    (processChunks [chunk42a, chunk42b]).map (fun p => (p.emits, p.output)) =
      some ([], [91, 32, 52, 10, 50, 37, 10]) := by
  refine ⟨by decide, by decide, by decide⟩

/-- Claim C3 is violated by the code: in the interleaving of raceTrace
the extraction attempt has resolved (Status is Pending, the
process-control thread has returned Ok) and yet the shared cancel flag
is still true, because a cancel call landed between the flag check of
the process-control thread and its status reset. -/
theorem claimC3_staleFlag :
    (run init raceTrace).map (fun s => (s.status, s.ppc, s.ret, s.flag)) =
      some (Status.Pending, PPc.done, some Res.ok, true) := by
  decide

/-- Claim C4: whenever the process-control thread has taken the kill
path (it observed the cancel flag and forcibly killed the child) and
has finished, its result is Ok, and the merge extract performs on the
join therefore yields the ordinary success result whatever transcript
the parser returned. -/
theorem claimC4_cancelOk (tr : List Act) (s : Sys) (h : run init tr = some s)
    (hk : s.killed = true) (hd : s.ppc = PPc.done) :
    s.ret = some Res.ok ∧
    ∀ output : List Nat, s.ret.map (mergeRes output) = some Res.ok := by
  have hI := inv_reachable tr s h
  obtain ⟨-, -, -, -, -, h6⟩ := hI
  rcases h6 hk with ⟨hpcs, -⟩ | ⟨-, hret⟩
  · rcases hpcs with h' | h' | h' <;> rw [h'] at hd <;> cases hd
  · refine ⟨hret, fun output => ?_⟩
    rw [hret]
    simp [mergeRes]

/-- Witness for claim C4 on the concrete kill interleaving. -/
theorem claimC4_witness :
    run init killTrace = some killFinal ∧
    killFinal.ret = some Res.ok ∧
    killFinal.ret.map (mergeRes []) = some Res.ok :=
  ⟨by decide,
    (claimC4_cancelOk killTrace killFinal (by decide) (by decide) (by decide)).1,
    (claimC4_cancelOk killTrace killFinal (by decide) (by decide) (by decide)).2 []⟩

/-- Claim C5: cancel with Status Pending fails with the not-running
error and leaves the flag (and, on the transition system, the status)
unchanged; cancel with Status Working sets the flag and succeeds; and a
second cancel while still Working again succeeds and leaves the flag
set, so it is idempotent. -/
theorem claimC5_cancel : ∀ f : Bool,
    cancelFn Status.Pending f = (Res.fail notRunningMsg, f) ∧
    cancelFn Status.Working f = (Res.ok, true) ∧
    cancelFn Status.Working (cancelFn Status.Working f).2 = (Res.ok, true) ∧
    ∀ s : Sys, (step Act.cancelCall s).map (fun s1 => s1.status) = some s.status := by
  intro f
  exact ⟨rfl, rfl, rfl, fun s => rfl⟩

/-- Claim C6, counterexample refuting both stronger directions of the
stated equivalence at reachable points. First: right after the child is
spawned and before the Working write, the child is alive and its exit
has not been observed, yet Status still reads Pending. Second: after
the process-control thread has observed the final exit through try_wait
(its local snapshot holds the exit status and it has passed the
cancel-flag check, about to write Pending), Status still reads
Working. -/
theorem claimC6_counterexample :
    (run init [Act.spawnChild]).map (fun s => (s.spawned, s.alive, s.ret, s.status)) =
      some (true, true, none, Status.Pending) ∧
    (run init [Act.spawnChild, Act.setWorking, Act.startPoller, Act.childExit (some 0),
        Act.tryWait, Act.checkCancel]).map (fun s => (s.status, s.waitv, s.ppc)) =
      some (Status.Working, some (some (some 0)), PPc.pendE) := by
  refine ⟨by decide, by decide⟩

/-- Claim C6 as amended: in every reachable state, Status Working
implies a child has been spawned, and the Pending-to-Working write is
sequenced before the process-control thread starts, so the write is
visible to cancel before that thread runs. Both stronger directions of
the claimed equivalence fail: a child is spawned while Status still
reads Pending in the window between spawn and the Working write, and
Status still reads Working after the exit has been observed in the
window between try_wait and the status reset. -/
theorem claimC6_ordering (tr : List Act) (s : Sys) (h : run init tr = some s) :
    (s.status = Status.Working → s.spawned = true) ∧
    (s.ppc ≠ PPc.notStarted → s.workingWrit = true) := by
  have hI := inv_reachable tr s h
  exact ⟨hI.2.2.1, fun hp => (hI.2.2.2.1 hp).1⟩

/-- Witness for claim C6 at the state reached by the three ordered
main-thread steps. -/
theorem claimC6_witness :
    run init [Act.spawnChild, Act.setWorking, Act.startPoller] = some startedSys ∧
    startedSys.spawned = true ∧ startedSys.workingWrit = true := by
  refine ⟨by decide, ?_, ?_⟩
  · exact (claimC6_ordering [Act.spawnChild, Act.setWorking, Act.startPoller]
      startedSys (by decide)).1 (by decide)
  · exact (claimC6_ordering [Act.spawnChild, Act.setWorking, Act.startPoller]
      startedSys (by decide)).2 (by decide)

/-- Claim C7: when the child exits with the non-zero code k, extract
fails with an error that carries the exit code (inside the
process-control message) and the transcript, and the transcript is the
concatenation of all observed non-progress, non-empty lines, each with
one trailing line feed, in order; when the child exits cleanly, extract
succeeds. -/
theorem claimC7_failure (cs : List (List Nat)) (ps : PState) (k : Int)
    (h : processChunks cs = some ps) (hk : k ≠ 0) :
    extractRes cs (exitRes (some k)) =
      some (Res.fail (asciiOf "Output: " ++ transcriptSpec (linesOf cs) ++
        asciiOf ", " ++ failMsg (some k))) ∧
    extractRes cs (exitRes (some 0)) = some Res.ok := by
  have hout := (processChunks_spec cs ps h).2
  have hex : exitRes (some k) = Res.fail (failMsg (some k)) := by
    simp [exitRes, hk]
  constructor
  · rw [extractRes, h, hex]
    simp [mergeRes, hout]
  · rw [extractRes, h]
    simp [exitRes, mergeRes]

/-- Witness for claim C7 on a concrete stream and exit code 2. -/
theorem claimC7_witness :
    processChunks errStream = some ⟨42, [42], [101, 114, 114, 10]⟩ ∧
    ((2 : Int) ≠ 0) ∧
    extractRes errStream (exitRes (some 2)) =
      some (Res.fail (asciiOf "Output: " ++ transcriptSpec (linesOf errStream) ++
        asciiOf ", " ++ failMsg (some 2))) ∧
    extractRes errStream (exitRes (some 0)) = some Res.ok :=
  ⟨by decide, by decide,
    (claimC7_failure errStream ⟨42, [42], [101, 114, 114, 10]⟩ 2 (by decide) (by decide)).1,
    (claimC7_failure errStream ⟨42, [42], [101, 114, 114, 10]⟩ 2 (by decide) (by decide)).2⟩

/-- Claim C8, counterexample: the line the claim gives as an example of
a silent drop ends with a closing bracket, not with a percent sign, so
it is not progress-shaped, and the parser appends it to the transcript
rather than dropping it. -/
theorem claimC8_counterexample :
    progressShape lineAbcBr = false ∧
    processLine initP lineAbcBr = some ⟨0, [], [91, 97, 98, 99, 37, 93, 10]⟩ := by
  refine ⟨by decide, by decide⟩

/-- Claim C8 as amended: a line is progress-shaped exactly when it
starts with an open bracket, ends with a percent sign and is at least
four bytes long; a non-progress non-empty line goes to the transcript
and never to the callback; a progress-shaped line whose slice fails to
parse (for example the line of lineAbc) is dropped with no callback and
no transcript entry; and a progress-shaped line whose slice parses to v
fires the callback exactly when v differs from the last emitted
value. -/
theorem claimC8_classification (st : PState) (l : List Nat) :
    (progressShape l = true ↔
      (l.head? = some 91 ∧ l.getLast? = some 37 ∧ 4 ≤ l.length)) ∧
    (progressShape l = false → l.length ≠ 0 →
      processLine st l = some { st with output := st.output ++ l ++ [10] }) ∧
    (progressShape l = true → sliceParse l = some none → processLine st l = some st) ∧
    (∀ v : Int, progressShape l = true → sliceParse l = some (some v) →
      processLine st l = some (if st.last = v then st
        else { st with last := v, emits := st.emits ++ [v] })) := by
  refine ⟨?_, ?_, ?_, ?_⟩
  · simp [progressShape, and_assoc]
  · intro hs hn
    simp [processLine, hs, hn]
  · intro hs hp
    simp [processLine, hs, hp]
  · intro v hs hp
    by_cases hv : st.last = v <;> simp [processLine, hs, hp, hv]

/-- Witness for claim C8 on three concrete lines: a diagnostic line, a
progress-shaped line that fails to parse, and a progress line with
value 42. -/
theorem claimC8_witness :
    processLine initP [101, 114, 114] = some ⟨0, [], [101, 114, 114, 10]⟩ ∧
    processLine initP lineAbc = some initP ∧
    processLine initP line42 = some ⟨42, [42], []⟩ := by
  refine ⟨?_, ?_, ?_⟩
  · exact (claimC8_classification initP [101, 114, 114]).2.1 (by decide) (by decide)
  · exact (claimC8_classification initP lineAbc).2.2.1 (by decide) (by decide)
  · have h := (claimC8_classification initP line42).2.2.2 42 (by decide) (by decide)
    rw [if_neg (by decide)] at h
    exact h

/-- Claim C9: the argument strings extract builds end up different from
the canonicalised path whenever the path contains a single quote,
because every quote byte is replaced by a five-byte sequence. -/
theorem claimC9_quoteChanges (p : List Nat) (h : 39 ∈ p) : replaceQuote p ≠ p := by
  intro heq
  have hlen := replaceQuote_length p
  rw [heq] at hlen
  have hc : 0 < p.count 39 := List.count_pos_iff.mpr h
  omega

/-- Witness for claim C9 on a three-byte path containing a quote. -/
theorem claimC9_witness :
    39 ∈ [97, 39, 98] ∧ replaceQuote [97, 39, 98] ≠ [97, 39, 98] :=
  ⟨by decide, claimC9_quoteChanges [97, 39, 98] (by decide)⟩

/-- Claim C10: a chunk whose bytes are not valid UTF-8 is discarded
whole: the parser state (callbacks, last value and transcript) is
unchanged by it and parsing continues with the next chunk. -/
theorem claimC10_invalidChunk (st : PState) (c : List Nat) (cs : List (List Nat))
    (h : utf8Decode? c = none) :
    processChunk st c = some st ∧
    processChunksFrom st (c :: cs) = processChunksFrom st cs := by
  constructor
  · simp [processChunk, h]
  · simp [processChunksFrom, processChunk, h]

/-- Witness for claim C10 on the one-byte chunk 255, which no UTF-8
sequence contains. -/
theorem claimC10_witness :
    utf8Decode? [255] = none ∧
    processChunk initP [255] = some initP ∧
    processChunksFrom initP [[255], [101, 10]] = processChunksFrom initP [[101, 10]] :=
  ⟨by decide,
    (claimC10_invalidChunk initP [255] [[101, 10]] (by decide)).1,
    (claimC10_invalidChunk initP [255] [[101, 10]] (by decide)).2⟩

end UnsquashfsWrapper
